import Mathlib

/-!
Verification of the stream-ingestion and conversation-state engine of the
llm-front-end repository (React front end).

The embedding models:
  * the SSE-style frame decoder of `sendChatRequest`
    (src/frontend/src/services/api.js, lines 75-174);
  * the conversation state machine of the `useChat` hook
    (src/frontend/src/hooks/useChat.js);
  * the sidebar conversation list controller
    (src/frontend/src/components/Sidebar.jsx);
  * the message input submit guard
    (src/frontend/src/components/MessageInput.jsx).

Strings are modelled as `List Char` (`Str`).  JavaScript JSON values are
modelled by the inductive `Json`; `JSON.parse` is modelled by `Json.parse`,
a fuel-based recursive-descent parser for the JSON grammar (numbers keep
their raw literal text, which is enough for every use in this code base:
the code only ever reads string-valued fields out of parsed payloads).
Asynchronous network interactions are modelled by passing the responses in
as explicit parameters and recording the requests issued as an effect list.
-/

namespace LlmFrontEnd

abbrev Str := List Char

/-- Whitespace recognised by JavaScript's `String.prototype.trim`
(the commonly occurring subset). -/
def isWsChar (c : Char) : Bool :=
  c == ' ' || c == '\t' || c == '\n' || c == '\r' || c == '\x0b' ||
  c == '\x0c' || c == '\u00A0' || c == '\u2028' || c == '\u2029' || c == '\uFEFF'

/-- Model of JavaScript `String.prototype.trim`. -/
def jsTrim (s : Str) : Str :=
  ((s.dropWhile isWsChar).reverse.dropWhile isWsChar).reverse

/-- Concatenation of a list of strings. -/
def joinS : List Str → Str
  | [] => []
  | s :: ss => s ++ joinS ss

/-- JavaScript JSON values.  Numbers keep the raw literal text of the
numeric token (the code under verification never does arithmetic on
parsed numbers, it only tests truthiness and reads string fields). -/
inductive Json where
  | null
  | bool (b : Bool)
  | num (raw : Str)
  | str (s : Str)
  | arr (elems : List Json)
  | obj (fields : List (Str × Json))

def lbrace : Char := '\x7b'
def rbrace : Char := '\x7d'

/-- JSON token-separating whitespace. -/
def jsonWs (c : Char) : Bool :=
  c == ' ' || c == '\t' || c == '\n' || c == '\r'

def skipWs (s : Str) : Str := s.dropWhile jsonWs

def hexVal (c : Char) : Option Nat :=
  if '0' ≤ c ∧ c ≤ '9' then some (c.toNat - '0'.toNat)
  else if 'a' ≤ c ∧ c ≤ 'f' then some (c.toNat - 'a'.toNat + 10)
  else if 'A' ≤ c ∧ c ≤ 'F' then some (c.toNat - 'A'.toNat + 10)
  else none

/-- Body of a JSON string literal, positioned just after the opening quote.
Returns the decoded characters together with the rest of the input after
the closing quote. -/
def parseStrBody : Nat → Str → Option (Str × Str)
  | 0, _ => none
  | _ + 1, [] => none
  | fuel + 1, c :: rest =>
    if c == '"' then some ([], rest)
    else if c == '\\' then
      match rest with
      | [] => none
      | e :: rest2 =>
        let push (d : Char) (r : Str) : Option (Str × Str) :=
          (parseStrBody fuel r).map (fun pr => (d :: pr.1, pr.2))
        if e == '"' then push '"' rest2
        else if e == '\\' then push '\\' rest2
        else if e == '/' then push '/' rest2
        else if e == 'b' then push '\x08' rest2
        else if e == 'f' then push '\x0c' rest2
        else if e == 'n' then push '\n' rest2
        else if e == 'r' then push '\r' rest2
        else if e == 't' then push '\t' rest2
        else if e == 'u' then
          match rest2 with
          | h1 :: h2 :: h3 :: h4 :: rest3 =>
            match hexVal h1, hexVal h2, hexVal h3, hexVal h4 with
            | some a, some b, some c2, some d =>
              push (Char.ofNat (((a * 16 + b) * 16 + c2) * 16 + d)) rest3
            | _, _, _, _ => none
          | _ => none
        else none
    else if c.toNat < 32 then none
    else (parseStrBody fuel rest).map (fun pr => (c :: pr.1, pr.2))

def takeDigits (s : Str) : Str × Str :=
  (s.takeWhile Char.isDigit, s.dropWhile Char.isDigit)

/-- Optional fraction part of a JSON number. -/
def parseFrac (s : Str) : Option (Str × Str) :=
  match s with
  | '.' :: r =>
    match takeDigits r with
    | ([], _) => none
    | (ds, rest) => some ('.' :: ds, rest)
  | _ => some ([], s)

/-- Optional exponent part of a JSON number. -/
def parseExp (s : Str) : Option (Str × Str) :=
  match s with
  | e :: r =>
    if e == 'e' || e == 'E' then
      let (sgn, r2) : Str × Str :=
        match r with
        | '+' :: rr => (['+'], rr)
        | '-' :: rr => (['-'], rr)
        | _ => ([], r)
      match takeDigits r2 with
      | ([], _) => none
      | (ds, rest) => some (e :: (sgn ++ ds), rest)
    else some ([], s)
  | [] => some ([], [])

/-- A JSON number token, returned as its raw text. -/
def parseNumRaw (s : Str) : Option (Str × Str) :=
  let (sign, s1) : Str × Str :=
    match s with
    | '-' :: r => (['-'], r)
    | _ => ([], s)
  match s1 with
  | [] => none
  | c :: r =>
    let intRes : Option (Str × Str) :=
      if c == '0' then some ([c], r)
      else if c.isDigit then
        let (ds, rest) := takeDigits r
        some (c :: ds, rest)
      else none
    match intRes with
    | none => none
    | some (ip, rest) =>
      match parseFrac rest with
      | none => none
      | some (fp, rest2) =>
        match parseExp rest2 with
        | none => none
        | some (ep, rest3) => some (sign ++ ip ++ fp ++ ep, rest3)

mutual

/-- One JSON value (recursive descent, fuel-bounded). -/
def parseVal : Nat → Str → Option (Json × Str)
  | 0, _ => none
  | fuel + 1, s =>
    match skipWs s with
    | [] => none
    | c :: r =>
      if c == '"' then
        (parseStrBody (r.length + 1) r).map (fun pr => (Json.str pr.1, pr.2))
      else if c == lbrace then parseObjFields fuel r true
      else if c == '[' then parseArrElems fuel r true
      else if c == 't' then
        match r with
        | 'r' :: 'u' :: 'e' :: r2 => some (Json.bool true, r2)
        | _ => none
      else if c == 'f' then
        match r with
        | 'a' :: 'l' :: 's' :: 'e' :: r2 => some (Json.bool false, r2)
        | _ => none
      else if c == 'n' then
        match r with
        | 'u' :: 'l' :: 'l' :: r2 => some (Json.null, r2)
        | _ => none
      else
        match parseNumRaw (c :: r) with
        | some (raw, rest) => some (Json.num raw, rest)
        | none => none

/-- Array elements, positioned after `[` or after a comma.  `first` is
true when a closing bracket may appear immediately. -/
def parseArrElems : Nat → Str → Bool → Option (Json × Str)
  | 0, _, _ => none
  | fuel + 1, s, first =>
    match skipWs s with
    | ']' :: r => if first then some (Json.arr [], r) else none
    | s' =>
      match parseVal fuel s' with
      | none => none
      | some (j, rest) =>
        match skipWs rest with
        | ',' :: r2 =>
          match parseArrElems fuel r2 false with
          | some (Json.arr js, rest2) => some (Json.arr (j :: js), rest2)
          | _ => none
        | ']' :: r2 => some (Json.arr [j], r2)
        | _ => none

/-- Object members, positioned after the opening brace or after a comma. -/
def parseObjFields : Nat → Str → Bool → Option (Json × Str)
  | 0, _, _ => none
  | fuel + 1, s, first =>
    match skipWs s with
    | [] => none
    | c :: r =>
      if c == rbrace then (if first then some (Json.obj [], r) else none)
      else if c == '"' then
        match parseStrBody (r.length + 1) r with
        | none => none
        | some (key, rest) =>
          match skipWs rest with
          | ':' :: r2 =>
            match parseVal fuel r2 with
            | none => none
            | some (v, rest2) =>
              match skipWs rest2 with
              | ',' :: r3 =>
                match parseObjFields fuel r3 false with
                | some (Json.obj kvs, rest3) => some (Json.obj ((key, v) :: kvs), rest3)
                | _ => none
              | c2 :: r3 => if c2 == rbrace then some (Json.obj [(key, v)], r3) else none
              | [] => none
          | _ => none
      else none

end

/-- Model of `JSON.parse`: `none` when the JavaScript call would throw a
`SyntaxError`. -/
def Json.parse (s : Str) : Option Json :=
  match parseVal (2 * s.length + 2) s with
  | some (j, rest) => if skipWs rest = [] then some j else none
  | none => none

/-! ### JavaScript value semantics used by the code -/

/-- Truthiness of a raw JSON numeric literal: falsy exactly when the value
is zero, i.e. when the mantissa has no nonzero digit. -/
def numTruthy (raw : Str) : Bool :=
  (raw.takeWhile (fun c => !(c == 'e') && !(c == 'E'))).any
    (fun c => '1' ≤ c && c ≤ '9')

/-- JavaScript truthiness of a possibly-undefined (`none`) JSON value. -/
def jsTruthy : Option Json → Bool
  | none => false
  | some Json.null => false
  | some (Json.bool b) => b
  | some (Json.num raw) => numTruthy raw
  | some (Json.str s) => !s.isEmpty
  | some (Json.arr _) => true
  | some (Json.obj _) => true

/-- Field lookup in a parsed JSON object.  `JSON.parse` keeps the last
occurrence of a duplicated key, hence the `getLast?`. -/
def lookupField (key : Str) (kvs : List (Str × Json)) : Option Json :=
  ((kvs.filter (fun kv => kv.1 == key)).getLast?).map (fun kv => kv.2)

/-- JavaScript property access `v.key`, where `none` stands for
`undefined`.  Accessing a property of `undefined` or `null` throws a
`TypeError` (`Except.error`); any other value yields the property or
`undefined`. -/
def jsGet : Option Json → Str → Except Unit (Option Json)
  | none, _ => Except.error ()
  | some Json.null, _ => Except.error ()
  | some (Json.obj kvs), key => Except.ok (lookupField key kvs)
  | some _, _ => Except.ok none

/-- JavaScript index access `v[0]`. -/
def jsIndex0 : Option Json → Except Unit (Option Json)
  | none => Except.error ()
  | some Json.null => Except.error ()
  | some (Json.arr (x :: _)) => Except.ok (some x)
  | some (Json.arr []) => Except.ok none
  | some (Json.str (c :: _)) => Except.ok (some (Json.str [c]))
  | some (Json.str []) => Except.ok none
  | some (Json.obj kvs) => Except.ok (lookupField ['0'] kvs)
  | some _ => Except.ok none

/-- JavaScript string coercion, as used by `+` on a string.  Numbers keep
their raw literal text (an approximation that is exact for the string
payloads this code actually concatenates). -/
def jsToStr : Json → Str
  | Json.str s => s
  | Json.num raw => raw
  | Json.bool true => "true".toList
  | Json.bool false => "false".toList
  | Json.null => "null".toList
  | Json.arr _ => []
  | Json.obj _ => "[object Object]".toList

/-! ### Frame decoder (`sendChatRequest`, api.js lines 98-164)

The decoder is the chunk loop of `sendChatRequest`: chunks are appended to
a buffer; each complete record (terminated by a blank line) is trimmed,
filtered for the `data: ` marker, the `[DONE]` sentinel and empty payloads
are dropped, the payload is `JSON.parse`d, an `error` member aborts the
stream, and every surviving payload is handed to `onChunk`.  After the
source stream ends, the remaining buffer is flushed by `split('\n\n')`
with silent (logged-only) parse errors. -/

def dataMarker : Str := "data: ".toList
def doneLit : Str := "[DONE]".toList
def errorKey : Str := "error".toList

/-- The session-fatal errors the chunk loop can throw. -/
inductive StreamErr where
  | parseErr (payload : Str)
  | accessErr (payload : Str)
  | serverErr (payload : Str)
deriving DecidableEq

/-- What the loop body does with one trimmed record line
(api.js lines 122-141). -/
inductive RecAct where
  | skip
  | emit (payload : Str) (j : Json)
  | fail (e : StreamErr)

/-- Loop body for one complete record: `data: ` filter, sentinel and
empty-payload drop, `JSON.parse`, `parsed.error` check, emission. -/
def recordAction (line : Str) : RecAct :=
  if dataMarker.isPrefixOf line then
    let data := line.drop 6
    if data = [] ∨ data = doneLit then RecAct.skip
    else
      match Json.parse data with
      | none => RecAct.fail (StreamErr.parseErr data)
      | some j =>
        match jsGet (some j) errorKey with
        | Except.error _ => RecAct.fail (StreamErr.accessErr data)
        | Except.ok ef =>
          if jsTruthy ef then RecAct.fail (StreamErr.serverErr data)
          else RecAct.emit data j
  else RecAct.skip

/-- Position of the first `"\n\n"` in the buffer, as the parts before and
after it (`buffer.indexOf('\n\n')` with the two slices). -/
def findBreak : Str → Option (Str × Str)
  | [] => none
  | [_] => none
  | c1 :: c2 :: rest =>
    if c1 == '\n' && c2 == '\n' then some ([], rest)
    else
      match findBreak (c2 :: rest) with
      | none => none
      | some (a, b) => some (c1 :: a, b)

/-- Whether `"\n\n"` occurs in the string. -/
def containsBreak : Str → Bool
  | [] => false
  | [_] => false
  | c1 :: c2 :: rest =>
    (c1 == '\n' && c2 == '\n') || containsBreak (c2 :: rest)

/-- Result of draining the buffer: events handed to `onChunk` (payload
text paired with its parsed value), a fatal error if one was thrown, and
the remaining buffer. -/
structure DrainRes where
  events : List (Str × Json)
  err : Option StreamErr
  buf : Str

/-- The inner `while ((boundary = buffer.indexOf('\n\n')) !== -1)` loop
(api.js lines 117-142), fuel-bounded so that it is structurally
recursive: process every complete record in the buffer.  Each iteration
strictly shrinks the buffer, so `buf.length + 1` fuel always suffices
(see `drainBufferF_fuel`). -/
def drainBufferF : Nat → Str → DrainRes
  | 0, buf => ⟨[], none, buf⟩
  | fuel + 1, buf =>
    match findBreak buf with
    | none => ⟨[], none, buf⟩
    | some (a, b) =>
      match recordAction (jsTrim a) with
      | RecAct.skip => drainBufferF fuel b
      | RecAct.emit p j =>
        let r := drainBufferF fuel b
        ⟨(p, j) :: r.events, r.err, r.buf⟩
      | RecAct.fail e => ⟨[], some e, b⟩

/-- The inner record-processing loop of `sendChatRequest`. -/
def drainBuffer (buf : Str) : DrainRes := drainBufferF (buf.length + 1) buf

/-- The outer `while (true)` read loop (api.js lines 102-143): append
each chunk to the buffer and drain it; a thrown error aborts the loop. -/
def runChunks (buf : Str) : List Str → DrainRes
  | [] => ⟨[], none, buf⟩
  | c :: cs =>
    let r := drainBuffer (buf ++ c)
    match r.err with
    | some e => ⟨r.events, some e, r.buf⟩
    | none =>
      let r2 := runChunks r.buf cs
      ⟨r.events ++ r2.events, r2.err, r2.buf⟩

/-- Model of `finalBuffer.split('\n\n')` (JavaScript `String.split` semantics). -/
def splitBreaks : Str → List Str
  | [] => [[]]
  | [c] => [[c]]
  | c1 :: c2 :: rest =>
    if c1 == '\n' && c2 == '\n' then [] :: splitBreaks rest
    else
      match splitBreaks (c2 :: rest) with
      | [] => [[c1]]
      | s :: ss => (c1 :: s) :: ss

/-- The line loop of the final flush (api.js lines 149-160).  The whole
loop sits inside one `try`, so the first parse failure silently ends the
flush.  Note the flush path performs no `parsed.error` check. -/
def flushLines : List Str → List (Str × Json)
  | [] => []
  | l :: ls =>
    let t := jsTrim l
    if dataMarker.isPrefixOf t then
      let data := t.drop 6
      if data ≠ [] ∧ data ≠ doneLit then
        match Json.parse data with
        | none => []
        | some j => (data, j) :: flushLines ls
      else flushLines ls
    else flushLines ls

/-- The final flush (api.js lines 146-164): only runs when the leftover
buffer trims nonempty. -/
def flushBuffer (buf : Str) : List (Str × Json) :=
  if jsTrim buf ≠ [] then flushLines (splitBreaks buf) else []

/-- Everything `sendChatRequest` hands to `onChunk` for a given chunked
response body, together with the fatal error it throws, if any. -/
structure DecodeRes where
  events : List (Str × Json)
  err : Option StreamErr

/-- The frame decoder of `sendChatRequest` (api.js lines 98-164), run over
a list of text chunks. -/
def sendChatRequest (chunks : List Str) : DecodeRes :=
  let r := runChunks [] chunks
  match r.err with
  | some e => ⟨r.events, some e⟩
  | none => ⟨r.events ++ flushBuffer r.buf, none⟩

/-! ### Conversation state machine (`useChat`, useChat.js lines 4-234)

State fields mirror the hook's `useState`/`useRef` cells.  The
`abortController` field is `none` when `abortControllerRef.current` is
null, and `some aborted` otherwise.  Network requests issued by an
operation are recorded in an `Eff` list; responses arrive through
explicit parameters (a `SendEnv` for `sendMessage`).  Each operation is
modelled as running to completion; the one mid-stream interleaving the
claims need — calling `sendMessage` while a stream is active — is
modelled by starting from a state whose `isStreaming` is true. -/

def roleUser : Str := "user".toList
def roleAssistant : Str := "assistant".toList

structure Msg where
  role : Str
  content : Str
deriving DecidableEq

/-- A conversation as returned by the persistence API (the fields the
hook reads). -/
structure Conv where
  id : Str
  title : Str
deriving DecidableEq

structure ChatState where
  messages : List Msg
  isLoading : Bool
  error : Option Str
  isStreaming : Bool
  currentConversationId : Option Str
  conversationTitle : Str
  abortController : Option Bool
deriving DecidableEq

/-- Externally visible actions of the hook: HTTP requests, the abort of
the active controller, and a `console.warn`. -/
inductive Eff where
  | abortSignal
  | createConversation (title : Str)
  | updateConversation (id : Str) (msgs : List Msg)
  | chatRequest (msgs : List Msg)
  | warn
deriving DecidableEq

def isHttpEff : Eff → Bool
  | Eff.createConversation _ => true
  | Eff.updateConversation _ _ => true
  | Eff.chatRequest _ => true
  | _ => false

def isCreateEff : Eff → Bool
  | Eff.createConversation _ => true
  | _ => false

def isWarnEff : Eff → Bool
  | Eff.warn => true
  | _ => false

/-- Model of `stopStreaming` (useChat.js lines 28-35). -/
def stopStreaming (s : ChatState) : ChatState × List Eff :=
  match s.abortController with
  | some _ =>
    ({ s with abortController := none, isStreaming := false, isLoading := false },
     [Eff.abortSignal])
  | none => (s, [])

/-- Model of `updateLastMessage` (useChat.js lines 13-26): append the delta to the
last message's content, but only when the last message exists and has the
assistant role; otherwise leave the log untouched. -/
def updateLastMessage (content : Str) : List Msg → List Msg
  | [] => []
  | [m] =>
    if m.role = roleAssistant then [⟨m.role, m.content ++ content⟩] else [m]
  | m :: m2 :: rest => m :: updateLastMessage content (m2 :: rest)

/-- The unguarded in-place append `updatedMessages[lastIndex].content +=
delta.content` (useChat.js lines 109-110) on the local copy of the log.
The send flow only ever applies it to a nonempty log. -/
def bumpLast (content : Str) : List Msg → List Msg
  | [] => []
  | [m] => [⟨m.role, m.content ++ content⟩]
  | m :: m2 :: rest => m :: bumpLast content (m2 :: rest)

def typeErrName : Str := "TypeError".toList
def abortName : Str := "AbortError".toList

/-- The `onChunk` callback body (useChat.js lines 101-116) on one parsed
chunk: `if (chunk.choices && chunk.choices[0].delta)` then, when
`delta.content` is truthy, the delta string to append; property access on
`undefined`/`null` throws, which the callback turns into a rejection. -/
def onChunkHandler (j : Json) : Except Unit (Option Str) :=
  match jsGet (some j) ("choices".toList) with
  | Except.error _ => Except.error ()
  | Except.ok choices =>
    if jsTruthy choices then
      match jsIndex0 choices with
      | Except.error _ => Except.error ()
      | Except.ok c0 =>
        match jsGet c0 ("delta".toList) with
        | Except.error _ => Except.error ()
        | Except.ok delta =>
          if jsTruthy delta then
            match jsGet delta ("content".toList) with
            | Except.error _ => Except.error ()
            | Except.ok contentF =>
              if jsTruthy contentF then
                Except.ok (some (jsToStr (contentF.getD Json.null)))
              else Except.ok none
          else Except.ok none
    else Except.ok none

def handlerOk (j : Json) : Bool :=
  match onChunkHandler j with
  | Except.ok _ => true
  | Except.error _ => false

/-- The delta-content string an emitted event contributes to the
assistant message (`chunk.choices[0].delta.content`, empty when absent
or falsy). -/
def deltaContent (j : Json) : Str :=
  match onChunkHandler j with
  | Except.ok (some d) => d
  | _ => []

/-- Deliver the stream events to the `onChunk` callback in order,
threading the React message log (`react`, updated through
`updateLastMessage`) and the local `updatedMessages` copy (`loc`).  A
callback that throws rejects the promise with a `TypeError` and no
further event is applied. -/
def runEvents : List Msg → List Msg → List Json → List Msg × List Msg × Option Str
  | react, loc, [] => (react, loc, none)
  | react, loc, j :: rest =>
    match onChunkHandler j with
    | Except.error _ => (react, loc, some typeErrName)
    | Except.ok none => runEvents react loc rest
    | Except.ok (some d) => runEvents (updateLastMessage d react) (bumpLast d loc) rest

/-- The environment of one `sendMessage` run: the `createConversation`
response (`none` = rejected), the parsed chunks `sendChatRequest` hands
to `onChunk`, and how the chat request promise settles afterwards
(`none` = resolves; `some name` = rejects with an error of that name,
e.g. "AbortError" or "SyntaxError"). -/
structure SendEnv where
  createResult : Option Conv
  events : List Json
  outcome : Option Str

def errCreateMsg : Str := "Failed to create new conversation".toList
def errServerMsg : Str := "Failed to get response from the server".toList
def newChatTitle : Str := "New Chat".toList

/-- Title derivation for a fresh conversation (useChat.js line 55). -/
def mkTitle (content : Str) : Str :=
  if 30 < content.length then content.take 30 ++ "...".toList else content

/-- The error-path filter (useChat.js line 138):
`msg.role !== 'assistant' || msg.content !== ''`. -/
def keepOnError (m : Msg) : Bool :=
  !(m.role == roleAssistant) || !(m.content == ([] : Str))

/-- Steps 2-6 of `sendMessage` (useChat.js lines 74-145), after the
conversation id is settled: show the user message, save it (failure only
logged), append the empty assistant placeholder, run the stream, save on
normal completion, and handle rejection in `catch`/`finally`. -/
def sendCore (s : ChatState) (cid : Str) (updMsgs : List Msg) (effs0 : List Eff)
    (env : SendEnv) : ChatState × List Eff :=
  let s1 := { s with messages := updMsgs, isLoading := true, isStreaming := true,
                     error := none }
  let effs1 := effs0 ++ [Eff.updateConversation cid updMsgs]
  let updMsgs2 := updMsgs ++ [⟨roleAssistant, []⟩]
  let s2 := { s1 with messages := updMsgs2 }
  let effs2 := effs1 ++ [Eff.chatRequest updMsgs2.dropLast]
  match runEvents s2.messages updMsgs2 env.events with
  | (react, loc, herr) =>
    let s3 := { s2 with messages := react }
    let eff : Option Str :=
      match herr with
      | some n => some n
      | none => env.outcome
    match eff with
    | none =>
      ({ s3 with abortController := none, isLoading := false, isStreaming := false },
       effs2 ++ [Eff.updateConversation cid loc])
    | some n =>
      if n = abortName then
        ({ s3 with abortController := none, isLoading := false, isStreaming := false },
         effs2)
      else
        ({ s3 with messages := react.filter keepOnError,
                   error := some errServerMsg,
                   abortController := none, isLoading := false, isStreaming := false },
         effs2)

/-- Model of `sendMessage` (useChat.js lines 37-146).  An active stream makes the
call a pure stop (toggle semantics); otherwise the conversation id is
created if absent and the send flow of `sendCore` runs. -/
def sendMessage (s : ChatState) (content : Str) (env : SendEnv) :
    ChatState × List Eff :=
  if s.isStreaming then stopStreaming s
  else
    let userMessage : Msg := ⟨roleUser, content⟩
    let s0 := { s with abortController := some false }
    match s0.currentConversationId with
    | none =>
      let title := mkTitle content
      match env.createResult with
      | none =>
        ({ s0 with error := some errCreateMsg, abortController := none },
         [Eff.createConversation title])
      | some conv =>
        sendCore
          { s0 with currentConversationId := some conv.id,
                    conversationTitle := conv.title }
          conv.id [userMessage] [Eff.createConversation title] env
    | some cid =>
      sendCore s0 cid (s0.messages ++ [userMessage]) [] env

/-- Model of `clearMessages` (useChat.js lines 157-168). -/
def clearMessages (s : ChatState) : ChatState × List Eff :=
  let p :=
    match s.abortController with
    | some _ => (({ s with abortController := none } : ChatState), [Eff.abortSignal])
    | none => (s, ([] : List Eff))
  ({ p.1 with messages := [], error := none, currentConversationId := none,
              conversationTitle := newChatTitle, isLoading := false,
              isStreaming := false },
   p.2)

/-- One firing of the debounced save effect (useChat.js lines 171-194):
the body runs only when a conversation id exists, the log is nonempty and
no stream is active; `result` is the `updateConversation` response
(`none` = rejected, which is only logged).  A returned id different from
the current one is adopted; a changed title is adopted. -/
def debouncedSave (s : ChatState) (result : Option Conv) : ChatState × List Eff :=
  match s.currentConversationId with
  | none => (s, [])
  | some cid =>
    if s.messages ≠ [] ∧ s.isStreaming = false then
      match result with
      | none => (s, [Eff.updateConversation cid s.messages])
      | some conv =>
        let s1 :=
          if conv.id ≠ cid then { s with currentConversationId := some conv.id }
          else s
        let s2 :=
          if conv.title ≠ s.conversationTitle then { s1 with conversationTitle := conv.title }
          else s1
        (s2, [Eff.updateConversation cid s.messages])
    else (s, [])

/-! ### Conversation list controller (`Sidebar`, Sidebar.jsx) -/

/-- Conversation metadata rendered in the sidebar; `updatedAt` models the
parsed `updated_at` timestamp. -/
structure ConvMeta where
  id : Str
  title : Str
  updatedAt : Int
deriving DecidableEq

structure SidebarState where
  conversations : List ConvMeta
  loading : Bool
  error : Option Str
deriving DecidableEq

inductive SideEff where
  | warnDuplicates
deriving DecidableEq

def errLoadListMsg : Str := "Failed to load conversations".toList

/-- Insertion into `new Set(ids)`: first occurrences kept, in order, skipping
ids already seen. -/
def dedupSeen (seen : List Str) : List Str → List Str
  | [] => []
  | x :: xs =>
    if x ∈ seen then dedupSeen seen xs else x :: dedupSeen (x :: seen) xs

/-- Spread of the id set: first occurrences in order. -/
def dedupSet (l : List Str) : List Str := dedupSeen [] l

/-- Model of `loadConversations` (Sidebar.jsx lines 27-51).  `result` is the
`fetchConversations` response.  Duplicate ids are detected by comparing
the id list with its `Set`-deduplication and only produce a
`console.warn`; the state keeps the full response. -/
def loadConversations (st : SidebarState) (result : Option (List ConvMeta)) :
    SidebarState × List SideEff :=
  match result with
  | some data =>
    let ids := data.map (fun c => c.id)
    let uniqueIds := dedupSet ids
    let effs := if ids.length ≠ uniqueIds.length then [SideEff.warnDuplicates] else []
    (({ conversations := data, loading := false, error := none } : SidebarState), effs)
  | none =>
    ({ st with error := some errLoadListMsg, loading := false }, [])

/-- The sort comparator of the rendered list (Sidebar.jsx lines 141-150)
as a `le` relation: comparator value ≤ 0. -/
def convLe (cur : Option Str) (a b : ConvMeta) : Bool :=
  if cur = some a.id then true
  else if cur = some b.id then false
  else b.updatedAt ≤ a.updatedAt

/-- Stable insertion of one element into a sorted list. -/
def insertSorted (le : ConvMeta → ConvMeta → Bool) (a : ConvMeta) :
    List ConvMeta → List ConvMeta
  | [] => [a]
  | b :: bs => if le a b then a :: b :: bs else b :: insertSorted le a bs

/-- A stable comparison sort (`Array.prototype.sort` is stable).  Every
property claimed of the rendered list only depends on the sorted list
being a permutation of its input. -/
def sortConvs (le : ConvMeta → ConvMeta → Bool) : List ConvMeta → List ConvMeta
  | [] => []
  | a :: as => insertSorted le a (sortConvs le as)

/-- The list the sidebar maps over when rendering (Sidebar.jsx lines
140-173): the conversations state sorted by the comparator. -/
def renderedConvs (cur : Option Str) (cs : List ConvMeta) : List ConvMeta :=
  sortConvs (convLe cur) cs

/-! ### Message input submit guard (`MessageInput`, MessageInput.jsx) -/

/-- Model of `handleSubmit` (MessageInput.jsx lines 8-14): the argument passed to
`onSend`, or `none` when `onSend` is not called. -/
def handleSubmit (message : Str) (disabled isSending : Bool) : Option Str :=
  if jsTrim message ≠ [] ∧ ¬ (disabled || isSending) then some (jsTrim message)
  else none

/-! ### Derived notions used to state the claims -/

/-- One wire record `"data: <payload>\n\n"`. -/
def dataRecord (p : Str) : Str := dataMarker ++ p ++ ['\n', '\n']

/-- The full response body for a sequence of payloads. -/
def streamOf : List Str → Str
  | [] => []
  | p :: ps => dataRecord p ++ streamOf ps

/-- A payload that yields a well-formed record `"data: <payload>\n\n"`:
nonempty, not the sentinel, containing no blank line, and not ending in
whitespace (so that the record's own terminator is its first blank line
and `trim` returns the payload unchanged). -/
def wfPayloadB (p : Str) : Bool :=
  !p.isEmpty && !(p == doneLit) && !(containsBreak p) &&
    !(isWsChar (p.getLastD 'a'))

/-- The parsed value of a payload known to parse. -/
def parsedOf (p : Str) : Json := (Json.parse p).getD Json.null

/-- Whether the loop body's `parsed.error` probe throws or finds a truthy
value (either aborts the stream). -/
def errFieldBad (j : Json) : Bool :=
  match jsGet (some j) errorKey with
  | Except.error _ => true
  | Except.ok ef => jsTruthy ef

/-- A payload the chunk loop is guaranteed to emit: well-formed record,
valid JSON, and no stream-aborting `error` member. -/
def goodPayloadB (p : Str) : Bool :=
  wfPayloadB p && (Json.parse p).isSome && !(errFieldBad (parsedOf p))

/-- The name of the error the `onChunk` callback rejects with, if any
event makes it throw (`none` when every event is handled). -/
def streamErrName : List Json → Option Str
  | [] => none
  | j :: rest =>
    match onChunkHandler j with
    | Except.error _ => some typeErrName
    | Except.ok _ => streamErrName rest

/-- How the awaited chat-request promise settles for a given environment:
a callback rejection wins over the transport outcome. -/
def effectiveOutcome (env : SendEnv) : Option Str :=
  match streamErrName env.events with
  | some n => some n
  | none => env.outcome

/-- The log `sendMessage` builds the user message onto: the existing log
for an existing conversation, the empty log for a freshly created one
(useChat.js lines 52-72). -/
def sendBase (s : ChatState) : List Msg :=
  match s.currentConversationId with
  | none => []
  | some _ => s.messages

/-- The React message log after the placeholder step and the delivery of
the stream events: base log, user message, assistant placeholder, then
the deltas. -/
def logAfterEvents (base : List Msg) (content : Str) (events : List Json) :
    List Msg :=
  (runEvents (base ++ [⟨roleUser, content⟩, ⟨roleAssistant, []⟩])
             (base ++ [⟨roleUser, content⟩, ⟨roleAssistant, []⟩]) events).1

/-! ### Concrete fixtures for witnesses and counterexamples -/

def payloadHi : Str :=
  "\x7b\"choices\":[\x7b\"delta\":\x7b\"content\":\"Hi\"\x7d\x7d]\x7d".toList

def payloadThere : Str :=
  "\x7b\"choices\":[\x7b\"delta\":\x7b\"content\":\" there\"\x7d\x7d]\x7d".toList

def payloadBoom : Str := "\x7b\"error\":\"boom\"\x7d".toList

def chunkHi : Json :=
  Json.obj [("choices".toList,
    Json.arr [Json.obj [("delta".toList,
      Json.obj [("content".toList, Json.str "Hi".toList)])]])]

/-- Payload list for the C1 witness. -/
def psW1 : List Str := [payloadHi, payloadThere]

/-- A chunking of `streamOf psW1` that splits in the middle of the first
record and in the middle of the second record's terminator. -/
def csW1 : List Str :=
  ["data: \x7b\"choices\":[\x7b\"delta\":\x7b\"con".toList,
   "tent\":\"Hi\"\x7d\x7d]\x7d\n\ndata: \x7b\"choices\":[\x7b\"delta\":\x7b\"content\":\" there\"\x7d\x7d]\x7d\n".toList,
   "\n".toList]

/-- Payload list for the C1 counterexample: a server `error` payload is
valid JSON and is not the sentinel, yet it aborts the stream. -/
def psE1 : List Str := [payloadBoom, payloadHi]

def csE1 : List Str := [streamOf psE1]

/-- Chunk list for the C2 witness: one `[DONE]` sentinel in the middle,
one empty payload, and a trailing `[DONE]` left to the final flush. -/
def chunksW2 : List Str :=
  ["data: \x7b\x7d\n\ndata: [DONE]\n\ndata: \n\ndata: [DONE]".toList]

/-- A state with an active stream session. -/
def sStreamFx : ChatState :=
  ⟨[⟨roleUser, "x".toList⟩], true, none, true, some "c1".toList, "T".toList,
   some false⟩

def envEmpty : SendEnv := ⟨none, [], none⟩

/-- The initial hook state. -/
def freshState : ChatState := ⟨[], false, none, false, none, newChatTitle, none⟩

def envCreateHello : SendEnv :=
  ⟨some ⟨"c1".toList, "Hello".toList⟩, [chunkHi], none⟩

/-- A state with an existing conversation and no active stream. -/
def sConvFx : ChatState :=
  ⟨[], false, none, false, some "c1".toList, "T".toList, none⟩

/-- Environment in which the stream delivers one delta and then fails
with a parse error. -/
def envErrAfterHi : SendEnv := ⟨none, [chunkHi], some "SyntaxError".toList⟩

def dupData : List ConvMeta :=
  [⟨"a".toList, "t1".toList, 5⟩, ⟨"a".toList, "t2".toList, 3⟩]

def sbInit : SidebarState := ⟨[], true, none⟩

/-- A state in which the debounced save effect fires. -/
def sSaveFx : ChatState :=
  ⟨[⟨roleUser, "x".toList⟩], false, none, false, some "a".toList, "T".toList,
   none⟩

def convB : Conv := ⟨"b".toList, "T".toList⟩

/-- Environment for a whitespace-only send: the create call succeeds. -/
def envWsCreate : SendEnv := ⟨some ⟨"c1".toList, "   ".toList⟩, [], none⟩

/-! ## Helper lemmas about the frame decoder -/

theorem findBreak_shrinks :
    ∀ (s a b : Str), findBreak s = some (a, b) → b.length < s.length := by
  intro s
  induction s with
  | nil => intro a b h; simp [findBreak] at h
  | cons c1 t ih =>
    intro a b h
    cases t with
    | nil => simp [findBreak] at h
    | cons c2 rest =>
      rw [findBreak] at h
      by_cases hc : (c1 == '\n' && c2 == '\n') = true
      · rw [if_pos hc] at h
        cases h
        simp
        omega
      · rw [if_neg hc] at h
        cases hfb : findBreak (c2 :: rest) with
        | none => rw [hfb] at h; cases h
        | some pr =>
          rw [hfb] at h
          cases pr with
          | mk a' b' =>
            cases h
            have := ih a' b hfb
            simp at this ⊢
            omega

theorem drainBufferF_congr :
    ∀ (f1 f2 : Nat) (buf : Str), buf.length < f1 → buf.length < f2 →
      drainBufferF f1 buf = drainBufferF f2 buf := by
  intro f1
  induction f1 with
  | zero => intro f2 buf h1 _; omega
  | succ g1 ih =>
    intro f2 buf h1 h2
    cases f2 with
    | zero => omega
    | succ g2 =>
      cases hfb : findBreak buf with
      | none => simp only [drainBufferF, hfb]
      | some pr =>
        cases pr with
        | mk a b =>
          have hlt := findBreak_shrinks buf a b hfb
          have hb1 : b.length < g1 := by omega
          have hb2 : b.length < g2 := by omega
          simp only [drainBufferF, hfb]
          cases recordAction (jsTrim a) with
          | skip => exact ih g2 b hb1 hb2
          | emit p j => simp only [ih g2 b hb1 hb2]
          | fail e => rfl

theorem drainBuffer_eq_none (buf : Str) (h : findBreak buf = none) :
    drainBuffer buf = ⟨[], none, buf⟩ := by
  rw [drainBuffer, drainBufferF, h]

theorem drainBuffer_step (buf a b : Str) (h : findBreak buf = some (a, b)) :
    drainBuffer buf =
      match recordAction (jsTrim a) with
      | RecAct.skip => drainBuffer b
      | RecAct.emit p j =>
        ⟨(p, j) :: (drainBuffer b).events, (drainBuffer b).err, (drainBuffer b).buf⟩
      | RecAct.fail e => ⟨[], some e, b⟩ := by
  have hlt := findBreak_shrinks buf a b h
  have hc : drainBufferF buf.length b = drainBuffer b := by
    rw [drainBuffer]
    exact drainBufferF_congr _ _ b (by omega) (by omega)
  cases hra : recordAction (jsTrim a) with
  | skip =>
    simp only [drainBuffer, drainBufferF, h, hra]
    exact hc
  | emit p j => simp only [drainBuffer, drainBufferF, h, hra, hc]
  | fail e => simp only [drainBuffer, drainBufferF, h, hra]

theorem drainBuffer_step_skip (buf a b : Str) (h : findBreak buf = some (a, b))
    (hra : recordAction (jsTrim a) = RecAct.skip) :
    drainBuffer buf = drainBuffer b := by
  rw [drainBuffer_step buf a b h, hra]

theorem drainBuffer_step_emit (buf a b : Str) (h : findBreak buf = some (a, b))
    (p : Str) (j : Json) (hra : recordAction (jsTrim a) = RecAct.emit p j) :
    drainBuffer buf =
      ⟨(p, j) :: (drainBuffer b).events, (drainBuffer b).err, (drainBuffer b).buf⟩ := by
  rw [drainBuffer_step buf a b h, hra]

theorem drainBuffer_step_fail (buf a b : Str) (h : findBreak buf = some (a, b))
    (e : StreamErr) (hra : recordAction (jsTrim a) = RecAct.fail e) :
    drainBuffer buf = ⟨[], some e, b⟩ := by
  rw [drainBuffer_step buf a b h, hra]

theorem isPrefixOf_append_self (a t : Str) : a.isPrefixOf (a ++ t) = true := by
  induction a with
  | nil => simp [List.isPrefixOf]
  | cons c a' ih => simp [List.isPrefixOf, ih]

theorem drop_marker (p : Str) : (dataMarker ++ p).drop 6 = p := by
  have h : dataMarker.length = 6 := rfl
  rw [← h, List.drop_left]

theorem jsTrim_eq_self (s : Str)
    (hhead : ∀ c, s.head? = some c → isWsChar c = false)
    (hlast : ∀ c, s.getLast? = some c → isWsChar c = false) :
    jsTrim s = s := by
  unfold jsTrim
  cases s with
  | nil => rfl
  | cons c t =>
    rw [List.dropWhile_cons]
    rw [if_neg (by simp [hhead c rfl])]
    have hne : (c :: t).reverse ≠ [] := by simp
    obtain ⟨d, u, hd⟩ := List.exists_cons_of_ne_nil hne
    rw [hd, List.dropWhile_cons]
    have hdl : (c :: t).getLast? = some d := by
      rw [← List.head?_reverse, hd]; rfl
    rw [if_neg (by simp [hlast d hdl])]
    rw [← hd, List.reverse_reverse]

theorem containsBreak_cons_of_ne (c1 : Char) (h1 : (c1 == '\n') = false)
    (r : Str) : containsBreak (c1 :: r) = containsBreak r := by
  cases r with
  | nil => rfl
  | cons c2 rest =>
    show ((c1 == '\n' && c2 == '\n') || containsBreak (c2 :: rest)) = _
    simp [h1]

theorem containsBreak_dataMarker (p : Str) (h : containsBreak p = false) :
    containsBreak (dataMarker ++ p) = false := by
  show containsBreak ('d' :: 'a' :: 't' :: 'a' :: ':' :: ' ' :: p) = false
  rw [containsBreak_cons_of_ne 'd' rfl, containsBreak_cons_of_ne 'a' rfl,
      containsBreak_cons_of_ne 't' rfl, containsBreak_cons_of_ne 'a' rfl,
      containsBreak_cons_of_ne ':' rfl, containsBreak_cons_of_ne ' ' rfl]
  exact h

theorem findBreak_clean (s : Str) (t : Str) (hnb : containsBreak s = false)
    (hlast : ∀ c, s.getLast? = some c → ¬ c = '\n') :
    findBreak (s ++ '\n' :: '\n' :: t) = some (s, t) := by
  induction s with
  | nil => rfl
  | cons c1 s' ih =>
    cases s' with
    | nil =>
      have hc : ¬ c1 = '\n' := hlast c1 rfl
      show findBreak (c1 :: '\n' :: '\n' :: t) = some ([c1], t)
      rw [findBreak]
      rw [if_neg (by simp [hc])]
      rfl
    | cons c2 s'' =>
      have h0 : ((c1 == '\n' && c2 == '\n') || containsBreak (c2 :: s'')) = false := hnb
      rw [Bool.or_eq_false_iff] at h0
      have hnb2 : containsBreak (c2 :: s'') = false := h0.2
      have hcc : (c1 == '\n' && c2 == '\n') = false := h0.1
      have hlast2 : ∀ c, (c2 :: s'').getLast? = some c → ¬ c = '\n' := by
        intro c hc
        exact hlast c (by rw [List.getLast?_cons_cons]; exact hc)
      have ih2 := ih hnb2 hlast2
      show findBreak (c1 :: c2 :: (s'' ++ '\n' :: '\n' :: t)) = some (c1 :: c2 :: s'', t)
      rw [findBreak, if_neg (by simp_all)]
      have : c2 :: (s'' ++ '\n' :: '\n' :: t) = (c2 :: s'') ++ '\n' :: '\n' :: t := rfl
      rw [this, ih2]

theorem findBreak_append (s : Str) (t : Str) :
    ∀ (a b : Str), findBreak s = some (a, b) →
      findBreak (s ++ t) = some (a, b ++ t) := by
  induction s with
  | nil => intro a b h; simp [findBreak] at h
  | cons c1 s' ih =>
    intro a b h
    cases s' with
    | nil => simp [findBreak] at h
    | cons c2 s'' =>
      rw [findBreak] at h
      by_cases hc : (c1 == '\n' && c2 == '\n') = true
      · rw [if_pos hc] at h
        simp only [Option.some.injEq, Prod.mk.injEq] at h
        obtain ⟨ha, hb⟩ := h
        subst ha; subst hb
        show findBreak (c1 :: c2 :: (s'' ++ t)) = some ([], s'' ++ t)
        rw [findBreak, if_pos hc]
      · rw [if_neg hc] at h
        cases hfb : findBreak (c2 :: s'') with
        | none => rw [hfb] at h; cases h
        | some pr =>
          rw [hfb] at h
          cases pr with
          | mk a' b' =>
            simp only [Option.some.injEq, Prod.mk.injEq] at h
            obtain ⟨ha, hb⟩ := h
            subst ha; subst hb
            have ih2 := ih a' b' hfb
            show findBreak (c1 :: c2 :: (s'' ++ t)) = some (c1 :: a', b' ++ t)
            rw [findBreak, if_neg hc]
            have : c2 :: (s'' ++ t) = (c2 :: s'') ++ t := rfl
            rw [this, ih2]

theorem drain_no_break_aux :
    ∀ (n : Nat) (buf : Str), buf.length ≤ n → (drainBuffer buf).err = none →
      findBreak (drainBuffer buf).buf = none := by
  intro n
  induction n with
  | zero =>
    intro buf hlen _
    have : buf = [] := by
      cases buf with
      | nil => rfl
      | cons c t => simp at hlen
    subst this
    rw [drainBuffer_eq_none [] rfl]
    rfl
  | succ m ih =>
    intro buf hlen herr
    cases hfb : findBreak buf with
    | none =>
      rw [drainBuffer_eq_none buf hfb]
      exact hfb
    | some pr =>
      cases pr with
      | mk a b =>
        have hlt := findBreak_shrinks buf a b hfb
        have hble : b.length ≤ m := by omega
        cases hra : recordAction (jsTrim a) with
        | skip =>
          rw [drainBuffer_step_skip buf a b hfb hra] at herr ⊢
          exact ih b hble herr
        | emit p j =>
          rw [drainBuffer_step_emit buf a b hfb p j hra] at herr ⊢
          exact ih b hble herr
        | fail e =>
          rw [drainBuffer_step_fail buf a b hfb e hra] at herr
          cases herr

theorem drain_no_break (buf : Str) (h : (drainBuffer buf).err = none) :
    findBreak (drainBuffer buf).buf = none :=
  drain_no_break_aux buf.length buf (Nat.le_refl _) h

theorem drain_append_aux :
    ∀ (n : Nat) (s t : Str), s.length ≤ n →
      ((∀ e, (drainBuffer s).err = some e →
         drainBuffer (s ++ t) =
           ⟨(drainBuffer s).events, some e, (drainBuffer s).buf ++ t⟩) ∧
       ((drainBuffer s).err = none →
         drainBuffer (s ++ t) =
           ⟨(drainBuffer s).events ++ (drainBuffer ((drainBuffer s).buf ++ t)).events,
            (drainBuffer ((drainBuffer s).buf ++ t)).err,
            (drainBuffer ((drainBuffer s).buf ++ t)).buf⟩)) := by
  intro n
  induction n with
  | zero =>
    intro s t hlen
    have hs : s = [] := by
      cases s with
      | nil => rfl
      | cons c u => simp at hlen
    subst hs
    rw [drainBuffer_eq_none [] rfl]
    constructor
    · intro e he; cases he
    · intro _
      simp
  | succ m ih =>
    intro s t hlen
    cases hfb : findBreak s with
    | none =>
      rw [drainBuffer_eq_none s hfb]
      constructor
      · intro e he; cases he
      · intro _
        simp
    | some pr =>
      cases pr with
      | mk a b =>
        have hlt := findBreak_shrinks s a b hfb
        have hble : b.length ≤ m := by omega
        have hfb2 : findBreak (s ++ t) = some (a, b ++ t) := findBreak_append s t a b hfb
        cases hra : recordAction (jsTrim a) with
        | skip =>
          rw [drainBuffer_step_skip s a b hfb hra,
              drainBuffer_step_skip (s ++ t) a (b ++ t) hfb2 hra]
          exact ih b t hble
        | emit p j =>
          rw [drainBuffer_step_emit s a b hfb p j hra,
              drainBuffer_step_emit (s ++ t) a (b ++ t) hfb2 p j hra]
          have ihb := ih b t hble
          constructor
          · intro e he
            simp only at he
            rw [ihb.1 e he]
          · intro he
            simp only at he
            rw [ihb.2 he]
            simp
        | fail e =>
          rw [drainBuffer_step_fail s a b hfb e hra,
              drainBuffer_step_fail (s ++ t) a (b ++ t) hfb2 e hra]
          constructor
          · intro e2 he
            simp only [Option.some.injEq] at he
            subst he
            rfl
          · intro he
            cases he

theorem drain_append_err (s t : Str) (e : StreamErr)
    (h : (drainBuffer s).err = some e) :
    drainBuffer (s ++ t) =
      ⟨(drainBuffer s).events, some e, (drainBuffer s).buf ++ t⟩ :=
  (drain_append_aux s.length s t (Nat.le_refl _)).1 e h

theorem drain_append_ok (s t : Str) (h : (drainBuffer s).err = none) :
    drainBuffer (s ++ t) =
      ⟨(drainBuffer s).events ++ (drainBuffer ((drainBuffer s).buf ++ t)).events,
       (drainBuffer ((drainBuffer s).buf ++ t)).err,
       (drainBuffer ((drainBuffer s).buf ++ t)).buf⟩ :=
  (drain_append_aux s.length s t (Nat.le_refl _)).2 h

theorem runChunks_spec :
    ∀ (cs : List Str) (buf : Str), findBreak buf = none →
      (runChunks buf cs).events = (drainBuffer (buf ++ joinS cs)).events ∧
      (runChunks buf cs).err = (drainBuffer (buf ++ joinS cs)).err ∧
      ((drainBuffer (buf ++ joinS cs)).err = none →
        (runChunks buf cs).buf = (drainBuffer (buf ++ joinS cs)).buf) := by
  intro cs
  induction cs with
  | nil =>
    intro buf hb
    have h1 : buf ++ joinS [] = buf := by simp [joinS]
    rw [h1, drainBuffer_eq_none buf hb]
    simp [runChunks]
  | cons c cs' ih =>
    intro buf hb
    have hassoc : buf ++ joinS (c :: cs') = (buf ++ c) ++ joinS cs' := by
      simp [joinS, List.append_assoc]
    rw [hassoc]
    cases herr : (drainBuffer (buf ++ c)).err with
    | some e =>
      rw [drain_append_err (buf ++ c) (joinS cs') e herr]
      refine ⟨?_, ?_, ?_⟩
      · simp [runChunks, herr]
      · simp [runChunks, herr]
      · intro hcontra
        simp at hcontra
    | none =>
      rw [drain_append_ok (buf ++ c) (joinS cs') herr]
      have hb2 : findBreak (drainBuffer (buf ++ c)).buf = none :=
        drain_no_break (buf ++ c) herr
      have ih2 := ih (drainBuffer (buf ++ c)).buf hb2
      simp only [runChunks, herr]
      exact ⟨by rw [ih2.1], by rw [ih2.2.1], fun h => by rw [ih2.2.2 h]⟩

theorem wf_parts (p : Str) (h : wfPayloadB p = true) :
    p ≠ [] ∧ p ≠ doneLit ∧ containsBreak p = false ∧
      (∀ c, p.getLast? = some c → isWsChar c = false) := by
  unfold wfPayloadB at h
  rw [Bool.and_eq_true, Bool.and_eq_true, Bool.and_eq_true] at h
  obtain ⟨⟨⟨h1, h2⟩, h3⟩, h4⟩ := h
  refine ⟨?_, ?_, ?_, ?_⟩
  · intro he
    subst he
    simp at h1
  · intro he
    subst he
    simp at h2
  · cases hcb : containsBreak p with
    | false => rfl
    | true => rw [hcb] at h3; cases h3
  · intro c hc
    have hgd : p.getLastD 'a' = c := by
      rw [List.getLastD_eq_getLast?, hc]
      rfl
    rw [hgd] at h4
    cases hw : isWsChar c with
    | false => rfl
    | true => rw [hw] at h4; cases h4

theorem goodPayload_parts (p : Str) (h : goodPayloadB p = true) :
    wfPayloadB p = true ∧ Json.parse p = some (parsedOf p) ∧
      errFieldBad (parsedOf p) = false := by
  unfold goodPayloadB at h
  rw [Bool.and_eq_true, Bool.and_eq_true] at h
  obtain ⟨⟨h1, h2⟩, h3⟩ := h
  refine ⟨h1, ?_, ?_⟩
  · cases hp : Json.parse p with
    | none => rw [hp] at h2; cases h2
    | some j => simp [parsedOf, hp]
  · cases he : errFieldBad (parsedOf p) with
    | false => rfl
    | true => rw [he] at h3; cases h3

theorem recordAction_good (p : Str) (h : goodPayloadB p = true) :
    recordAction (jsTrim (dataMarker ++ p)) = RecAct.emit p (parsedOf p) := by
  obtain ⟨hwf, hparse, herrf⟩ := goodPayload_parts p h
  obtain ⟨hne, hnd, hnb, hlastok⟩ := wf_parts p hwf
  have htrim : jsTrim (dataMarker ++ p) = dataMarker ++ p := by
    apply jsTrim_eq_self
    · intro c hc
      have hcd : c = 'd' := by
        have : (dataMarker ++ p).head? = some 'd' := rfl
        rw [this] at hc
        cases hc
        rfl
      subst hcd
      rfl
    · intro c hc
      rw [List.getLast?_append_of_ne_nil _ hne] at hc
      exact hlastok c hc
  rw [htrim]
  unfold recordAction
  rw [if_pos (isPrefixOf_append_self dataMarker p), drop_marker]
  rw [if_neg (by simp [hne, hnd])]
  rw [hparse]
  unfold errFieldBad at herrf
  show (match jsGet (some (parsedOf p)) errorKey with
        | Except.error _ => RecAct.fail (StreamErr.accessErr p)
        | Except.ok ef =>
          if jsTruthy ef = true then RecAct.fail (StreamErr.serverErr p)
          else RecAct.emit p (parsedOf p)) = RecAct.emit p (parsedOf p)
  cases hge : jsGet (some (parsedOf p)) errorKey with
  | error u => rw [hge] at herrf; cases herrf
  | ok ef =>
    rw [hge] at herrf
    have herrf2 : jsTruthy ef = false := herrf
    show (if jsTruthy ef = true then RecAct.fail (StreamErr.serverErr p)
          else RecAct.emit p (parsedOf p)) = RecAct.emit p (parsedOf p)
    rw [if_neg (by rw [herrf2]; exact Bool.false_ne_true)]

theorem drainBuffer_streamOf :
    ∀ (ps : List Str), (∀ p ∈ ps, goodPayloadB p = true) →
      drainBuffer (streamOf ps) =
        ⟨ps.map (fun p => (p, parsedOf p)), none, []⟩ := by
  intro ps
  induction ps with
  | nil => intro _; exact drainBuffer_eq_none [] rfl
  | cons p ps' ih =>
    intro h
    have hp := h p (List.mem_cons_self p ps')
    have hps' : ∀ q ∈ ps', goodPayloadB q = true :=
      fun q hq => h q (List.mem_cons_of_mem p hq)
    obtain ⟨hwf, _, _⟩ := goodPayload_parts p hp
    obtain ⟨hne, _, hnb, hlastok⟩ := wf_parts p hwf
    have hshape : streamOf (p :: ps') =
        (dataMarker ++ p) ++ '\n' :: '\n' :: streamOf ps' := by
      show dataRecord p ++ streamOf ps' = _
      rw [dataRecord]
      simp [List.append_assoc]
    have hfb : findBreak (streamOf (p :: ps')) =
        some (dataMarker ++ p, streamOf ps') := by
      rw [hshape]
      apply findBreak_clean
      · exact containsBreak_dataMarker p hnb
      · intro c hc
        rw [List.getLast?_append_of_ne_nil _ hne] at hc
        have hw := hlastok c hc
        intro hceq
        subst hceq
        simp [isWsChar] at hw
    rw [drainBuffer_step_emit _ _ _ hfb p (parsedOf p) (recordAction_good p hp),
        ih hps']
    simp

/-! ## C1: lossless, chunking-independent decoding -/

/-- C1 (amended): for well-formed records whose payloads are valid JSON,
are not the `[DONE]` sentinel, and do not carry a stream-aborting `error`
member, decoding any chunking of the stream and concatenating the
`deltaContent` of the emitted events gives exactly the concatenation of
the payloads' `choices[0].delta.content` strings, in order, with no error
raised. -/
theorem c1_stream_concat (ps : List Str) (hps : ∀ p ∈ ps, goodPayloadB p = true)
    (cs : List Str) (hcs : joinS cs = streamOf ps) :
    (sendChatRequest cs).err = none ∧
    joinS ((sendChatRequest cs).events.map (fun pr => deltaContent pr.2)) =
      joinS (ps.map (fun p => deltaContent (parsedOf p))) := by
  have hds := drainBuffer_streamOf ps hps
  have hrc := runChunks_spec cs [] rfl
  rw [List.nil_append, hcs, hds] at hrc
  obtain ⟨hev, herr, hbuf⟩ := hrc
  simp only at hev herr hbuf
  have hbuf2 : (runChunks [] cs).buf = [] := hbuf trivial
  unfold sendChatRequest
  simp only [herr]
  constructor
  · trivial
  · rw [hev, hbuf2]
    show joinS (List.map _ (List.map (fun p => (p, parsedOf p)) ps ++ flushBuffer [])) = _
    rw [show flushBuffer ([] : Str) = [] from rfl]
    rw [List.append_nil, List.map_map]
    rfl

/-- C1 witness: a two-record stream delivered in three chunks whose
boundaries fall inside a record and inside a record terminator. -/
theorem c1_stream_concat_witness :
    (sendChatRequest csW1).err = none ∧
    joinS ((sendChatRequest csW1).events.map (fun pr => deltaContent pr.2)) =
      joinS (psW1.map (fun p => deltaContent (parsedOf p))) :=
  c1_stream_concat psW1 (by decide) csW1 (by decide)

/-- C1 counterexample: the claim quantifies over all records whose
payloads are valid JSON and not the sentinel, but a payload carrying a
truthy `error` member is such a record and aborts the loop, so the
deltas of later records are lost: the two concatenations differ. -/
theorem c1_counterexample :
    (∀ p ∈ psE1, (Json.parse p).isSome = true ∧ p ≠ doneLit) ∧
    joinS csE1 = streamOf psE1 ∧
    ¬ (joinS ((sendChatRequest csE1).events.map (fun pr => deltaContent pr.2)) =
        joinS (psE1.map (fun p => deltaContent (parsedOf p)))) := by
  decide

/-! ## C2: the sentinel and empty payloads are never emitted -/

theorem recordAction_emit_shape (line p : Str) (j : Json)
    (h : recordAction line = RecAct.emit p j) : p ≠ [] ∧ p ≠ doneLit := by
  simp only [recordAction] at h
  split at h
  · split at h
    · cases h
    · next hne =>
      split at h
      · cases h
      · split at h
        · cases h
        · split at h
          · cases h
          · injection h with h1 h2
            subst h1
            push_neg at hne
            exact hne
  · cases h

theorem drain_events_shape :
    ∀ (n : Nat) (buf : Str), buf.length ≤ n →
      ∀ pr ∈ (drainBuffer buf).events, pr.1 ≠ [] ∧ pr.1 ≠ doneLit := by
  intro n
  induction n with
  | zero =>
    intro buf hlen pr hm
    have : buf = [] := by
      cases buf with
      | nil => rfl
      | cons c t => simp at hlen
    subst this
    rw [drainBuffer_eq_none [] rfl] at hm
    simp at hm
  | succ m ih =>
    intro buf hlen pr hm
    cases hfb : findBreak buf with
    | none =>
      rw [drainBuffer_eq_none buf hfb] at hm
      simp at hm
    | some pair =>
      cases pair with
      | mk a b =>
        have hlt := findBreak_shrinks buf a b hfb
        have hble : b.length ≤ m := by omega
        cases hra : recordAction (jsTrim a) with
        | skip =>
          rw [drainBuffer_step_skip buf a b hfb hra] at hm
          exact ih b hble pr hm
        | emit p j =>
          rw [drainBuffer_step_emit buf a b hfb p j hra] at hm
          simp only [List.mem_cons] at hm
          cases hm with
          | inl heq =>
            subst heq
            exact recordAction_emit_shape (jsTrim a) p j hra
          | inr hmem => exact ih b hble pr hmem
        | fail e =>
          rw [drainBuffer_step_fail buf a b hfb e hra] at hm
          simp at hm

theorem flushLines_shape :
    ∀ (ls : List Str), ∀ pr ∈ flushLines ls, pr.1 ≠ [] ∧ pr.1 ≠ doneLit := by
  intro ls
  induction ls with
  | nil => intro pr hm; simp [flushLines] at hm
  | cons l ls' ih =>
    intro pr hm
    simp only [flushLines] at hm
    split at hm
    · split at hm
      · next hcond =>
        split at hm
        · simp at hm
        · simp only [List.mem_cons] at hm
          cases hm with
          | inl heq => subst heq; exact hcond
          | inr hmem => exact ih pr hmem
      · exact ih pr hm
    · exact ih pr hm

theorem runChunks_shape :
    ∀ (cs : List Str) (buf : Str),
      ∀ pr ∈ (runChunks buf cs).events, pr.1 ≠ [] ∧ pr.1 ≠ doneLit := by
  intro cs
  induction cs with
  | nil => intro buf pr hm; simp [runChunks] at hm
  | cons c cs' ih =>
    intro buf pr hm
    cases herr : (drainBuffer (buf ++ c)).err with
    | some e =>
      simp only [runChunks, herr] at hm
      exact drain_events_shape (buf ++ c).length (buf ++ c) (Nat.le_refl _) pr hm
    | none =>
      simp only [runChunks, herr] at hm
      rw [List.mem_append] at hm
      cases hm with
      | inl h1 =>
        exact drain_events_shape (buf ++ c).length (buf ++ c) (Nat.le_refl _) pr h1
      | inr h2 => exact ih (drainBuffer (buf ++ c)).buf pr h2

/-- C2: for every input chunking, no record whose payload is the `[DONE]`
sentinel — wherever it occurs, the flushed trailing partial record
included — and no record with an empty payload is ever passed to the
`onChunk` callback. -/
theorem c2_sentinel_never_emitted (chunks : List Str) :
    ∀ pr ∈ (sendChatRequest chunks).events, pr.1 ≠ doneLit ∧ pr.1 ≠ [] := by
  intro pr hm
  simp only [sendChatRequest] at hm
  cases herr : (runChunks [] chunks).err with
  | some e =>
    rw [herr] at hm
    simp only at hm
    have := runChunks_shape chunks [] pr hm
    exact ⟨this.2, this.1⟩
  | none =>
    rw [herr] at hm
    simp only at hm
    rw [List.mem_append] at hm
    cases hm with
    | inl h1 =>
      have := runChunks_shape chunks [] pr h1
      exact ⟨this.2, this.1⟩
    | inr h2 =>
      unfold flushBuffer at h2
      split at h2
      · have := flushLines_shape _ pr h2
        exact ⟨this.2, this.1⟩
      · simp at h2

/-- C2 witness: a stream containing a mid-stream `[DONE]`, an empty
payload and a trailing `[DONE]` record left to the final flush emits only
the one real payload. -/
theorem c2_sentinel_never_emitted_witness :
    ("\x7b\x7d".toList : Str) ≠ doneLit ∧ ("\x7b\x7d".toList : Str) ≠ [] := by
  have hev : (sendChatRequest chunksW2).events =
      [(("\x7b\x7d".toList : Str), Json.obj [])] := by rfl
  have hmem : (("\x7b\x7d".toList : Str), Json.obj []) ∈
      (sendChatRequest chunksW2).events := by
    rw [hev]
    exact List.mem_singleton.mpr rfl
  exact c2_sentinel_never_emitted chunksW2 _ hmem

/-! ## C3: sendMessage while streaming only stops the stream -/

/-- C3: in every state with an active stream, `sendMessage` issues no
HTTP request (no create, update, or chat call) and performs no change to
the message log; it only runs `stopStreaming`, which — the session's
controller being present — aborts it and clears the streaming and
loading flags. -/
theorem c3_sendMessage_toggle (s : ChatState) (content : Str) (env : SendEnv)
    (h : s.isStreaming = true) :
    sendMessage s content env = stopStreaming s ∧
    ((sendMessage s content env).2.all (fun e => !(isHttpEff e))) = true ∧
    (sendMessage s content env).1.messages = s.messages ∧
    (∀ a, s.abortController = some a →
      (sendMessage s content env).1.isStreaming = false ∧
      (sendMessage s content env).1.isLoading = false ∧
      (sendMessage s content env).2 = [Eff.abortSignal]) := by
  have hsend : sendMessage s content env = stopStreaming s := by
    unfold sendMessage
    rw [if_pos h]
  refine ⟨hsend, ?_, ?_, ?_⟩
  · rw [hsend]
    cases hac : s.abortController <;> simp [stopStreaming, hac, isHttpEff]
  · rw [hsend]
    cases hac : s.abortController <;> simp [stopStreaming, hac]
  · intro a ha
    rw [hsend]
    simp [stopStreaming, ha]

/-- C3 witness: a concrete streaming state with a live controller. -/
theorem c3_sendMessage_toggle_witness :
    sendMessage sStreamFx "y".toList envEmpty = stopStreaming sStreamFx ∧
    (sendMessage sStreamFx "y".toList envEmpty).1.isStreaming = false ∧
    (sendMessage sStreamFx "y".toList envEmpty).2 = [Eff.abortSignal] := by
  have h := c3_sendMessage_toggle sStreamFx "y".toList envEmpty rfl
  exact ⟨h.1, (h.2.2.2 false rfl).1, (h.2.2.2 false rfl).2.2⟩

/-! ## C8: clearMessages resets everything -/

/-- C8: from every prior state, `clearMessages` leaves an empty log, no
conversation id and no error, and aborts the active session exactly when
a controller was present. -/
theorem c8_clearMessages (s : ChatState) :
    (clearMessages s).1.messages = [] ∧
    (clearMessages s).1.currentConversationId = none ∧
    (clearMessages s).1.error = none ∧
    (clearMessages s).2 =
      (if s.abortController.isSome then [Eff.abortSignal] else []) := by
  cases hac : s.abortController <;> simp [clearMessages, hac]

/-! ## C10: updateLastMessage frame conditions -/

theorem updateLastMessage_cons₂ (d : Str) (m m2 : Msg) (rest : List Msg) :
    updateLastMessage d (m :: m2 :: rest) = m :: updateLastMessage d (m2 :: rest) :=
  rfl

theorem updateLastMessage_length (d : Str) :
    ∀ log : List Msg, (updateLastMessage d log).length = log.length := by
  intro log
  induction log with
  | nil => rfl
  | cons m rest ih =>
    cases rest with
    | nil =>
      show (updateLastMessage d [m]).length = 1
      unfold updateLastMessage
      split <;> rfl
    | cons m2 rest' =>
      rw [updateLastMessage_cons₂]
      simp only [List.length_cons, ih]

theorem updateLastMessage_roles (d : Str) :
    ∀ log : List Msg,
      (updateLastMessage d log).map Msg.role = log.map Msg.role := by
  intro log
  induction log with
  | nil => rfl
  | cons m rest ih =>
    cases rest with
    | nil =>
      show (updateLastMessage d [m]).map Msg.role = [m.role]
      unfold updateLastMessage
      split <;> rfl
    | cons m2 rest' =>
      rw [updateLastMessage_cons₂]
      simp only [List.map_cons, ih]

theorem updateLastMessage_dropLast (d : Str) :
    ∀ log : List Msg,
      (updateLastMessage d log).dropLast = log.dropLast := by
  intro log
  induction log with
  | nil => rfl
  | cons m rest ih =>
    cases rest with
    | nil =>
      show (updateLastMessage d [m]).dropLast = []
      unfold updateLastMessage
      split <;> rfl
    | cons m2 rest' =>
      rw [updateLastMessage_cons₂]
      have h1 : updateLastMessage d (m2 :: rest') ≠ [] := by
        intro hc
        have := updateLastMessage_length d (m2 :: rest')
        rw [hc] at this
        simp at this
      rw [List.dropLast_cons_of_ne_nil h1, ih]
      cases rest' <;> rfl

theorem updateLastMessage_nonassistant (d : Str) :
    ∀ (log : List Msg) (m : Msg), log.getLast? = some m →
      ¬ m.role = roleAssistant → updateLastMessage d log = log := by
  intro log
  induction log with
  | nil => intro m hm; cases hm
  | cons m0 rest ih =>
    cases rest with
    | nil =>
      intro m hm hrole
      have hm0 : m0 = m := by
        simp [List.getLast?] at hm
        exact hm
      subst hm0
      show updateLastMessage d [m0] = [m0]
      unfold updateLastMessage
      rw [if_neg hrole]
    | cons m2 rest' =>
      intro m hm hrole
      rw [List.getLast?_cons_cons] at hm
      rw [updateLastMessage_cons₂, ih m hm hrole]

/-- C10: applying a delta through `updateLastMessage` preserves the log's
length and every message's role, leaves all messages but the last
unchanged, and is the identity on an empty log or when the last message
is not an assistant message; the function is total, so no exception can
be raised. -/
theorem c10_updateLastMessage_frame (d : Str) (log : List Msg) :
    (updateLastMessage d log).length = log.length ∧
    (updateLastMessage d log).map Msg.role = log.map Msg.role ∧
    (updateLastMessage d log).dropLast = log.dropLast ∧
    (log = [] → updateLastMessage d log = log) ∧
    (∀ m, log.getLast? = some m → ¬ m.role = roleAssistant →
      updateLastMessage d log = log) :=
  ⟨updateLastMessage_length d log, updateLastMessage_roles d log,
   updateLastMessage_dropLast d log,
   fun h => by subst h; rfl,
   fun m hm hrole => updateLastMessage_nonassistant d log m hm hrole⟩

/-- C10 witness: a log whose last message is a user message is left
untouched. -/
theorem c10_updateLastMessage_frame_witness :
    updateLastMessage "x".toList [(⟨roleUser, "a".toList⟩ : Msg)] =
      [(⟨roleUser, "a".toList⟩ : Msg)] :=
  (c10_updateLastMessage_frame "x".toList
      [(⟨roleUser, "a".toList⟩ : Msg)]).2.2.2.2
    ⟨roleUser, "a".toList⟩ rfl (by decide)

/-! ## Stream-event application lemmas -/

theorem updateLastMessage_snoc (d : Str) :
    ∀ (l : List Msg) (c : Str),
      updateLastMessage d (l ++ [⟨roleAssistant, c⟩]) =
        l ++ [⟨roleAssistant, c ++ d⟩] := by
  intro l
  induction l with
  | nil =>
    intro c
    show updateLastMessage d [⟨roleAssistant, c⟩] = [⟨roleAssistant, c ++ d⟩]
    unfold updateLastMessage
    rw [if_pos rfl]
  | cons m l' ih =>
    intro c
    have hne : l' ++ [(⟨roleAssistant, c⟩ : Msg)] ≠ [] := by simp
    obtain ⟨x, xs, hx⟩ := List.exists_cons_of_ne_nil hne
    show updateLastMessage d (m :: (l' ++ [⟨roleAssistant, c⟩])) =
      m :: (l' ++ [⟨roleAssistant, c ++ d⟩])
    rw [hx, updateLastMessage_cons₂, ← hx, ih c]

theorem runEvents_ok :
    ∀ (events : List Json), (∀ j ∈ events, handlerOk j = true) →
      ∀ (l : List Msg) (c : Str) (loc : List Msg),
        (runEvents (l ++ [⟨roleAssistant, c⟩]) loc events).1 =
          l ++ [⟨roleAssistant, c ++ joinS (events.map deltaContent)⟩] ∧
        (runEvents (l ++ [⟨roleAssistant, c⟩]) loc events).2.2 = none := by
  intro events
  induction events with
  | nil =>
    intro _ l c loc
    simp [runEvents, joinS]
  | cons j rest ih =>
    intro hok l c loc
    have hj := hok j (List.mem_cons_self j rest)
    have hrest : ∀ q ∈ rest, handlerOk q = true :=
      fun q hq => hok q (List.mem_cons_of_mem j hq)
    cases hoc : onChunkHandler j with
    | error u =>
      unfold handlerOk at hj
      rw [hoc] at hj
      cases hj
    | ok od =>
      cases od with
      | none =>
        have hd : deltaContent j = [] := by
          unfold deltaContent
          rw [hoc]
        have hih := ih hrest l c loc
        simp only [runEvents, hoc]
        constructor
        · rw [hih.1]
          simp [joinS, hd]
        · exact hih.2
      | some d =>
        have hd : deltaContent j = d := by
          unfold deltaContent
          rw [hoc]
        have hih := ih hrest l (c ++ d) (bumpLast d loc)
        simp only [runEvents, hoc]
        rw [updateLastMessage_snoc d l c]
        constructor
        · rw [hih.1]
          simp [joinS, hd, List.append_assoc]
        · exact hih.2

theorem runEvents_errName :
    ∀ (events : List Json) (react loc : List Msg),
      (runEvents react loc events).2.2 = streamErrName events := by
  intro events
  induction events with
  | nil => intro react loc; rfl
  | cons j rest ih =>
    intro react loc
    cases hoc : onChunkHandler j with
    | error u => simp [runEvents, streamErrName, hoc]
    | ok od => cases od <;> simp [runEvents, streamErrName, hoc, ih]

/-! ## C7: first send into a fresh conversation -/

/-- C7: with no conversation id and no active stream, a send whose
create call succeeds issues exactly one `createConversation`, titled with
the first 30 characters plus an ellipsis when the content is longer than
30 characters and with the content verbatim otherwise; after the
placeholder step the log is exactly the user message followed by the
empty assistant message, and the stream events only ever change the
assistant entry's content, so the final log is the user message followed
by the assistant message holding the concatenated deltas. -/
theorem c7_new_conversation (s : ChatState) (content : Str) (env : SendEnv)
    (conv : Conv)
    (hstream : s.isStreaming = false)
    (hid : s.currentConversationId = none)
    (hcreate : env.createResult = some conv)
    (hok : ∀ j ∈ env.events, handlerOk j = true)
    (houtcome : env.outcome = none) :
    ((sendMessage s content env).2.filter isCreateEff) =
      [Eff.createConversation
        (if 30 < content.length then content.take 30 ++ "...".toList
         else content)] ∧
    logAfterEvents [] content [] =
      [⟨roleUser, content⟩, ⟨roleAssistant, []⟩] ∧
    (sendMessage s content env).1.messages =
      [⟨roleUser, content⟩,
       ⟨roleAssistant, joinS (env.events.map deltaContent)⟩] := by
  have hre := runEvents_ok env.events hok [⟨roleUser, content⟩] []
    ([⟨roleUser, content⟩] ++ [⟨roleAssistant, []⟩])
  unfold sendMessage
  rw [if_neg (by rw [hstream]; exact Bool.false_ne_true)]
  simp only [hid, hcreate]
  unfold sendCore
  simp only
  cases hrun : runEvents ([(⟨roleUser, content⟩ : Msg)] ++ [⟨roleAssistant, []⟩])
      ([(⟨roleUser, content⟩ : Msg)] ++ [⟨roleAssistant, []⟩]) env.events with
  | mk react rest =>
    cases rest with
    | mk loc herrv =>
      rw [hrun] at hre
      simp only at hre
      obtain ⟨hreact, herrnone⟩ := hre
      subst herrnone
      simp only [houtcome]
      refine ⟨?_, ?_, ?_⟩
      · simp [isCreateEff, List.filter, mkTitle]
      · rfl
      · rw [hreact]
        simp

/-- C7 witness: sending "Hello" from the initial state with one delta
chunk "Hi" arriving. -/
theorem c7_new_conversation_witness :
    ((sendMessage freshState "Hello".toList envCreateHello).2.filter isCreateEff) =
      [Eff.createConversation
        (if 30 < ("Hello".toList : Str).length
         then ("Hello".toList : Str).take 30 ++ "...".toList
         else "Hello".toList)] ∧
    logAfterEvents [] "Hello".toList [] =
      [⟨roleUser, "Hello".toList⟩, ⟨roleAssistant, []⟩] ∧
    (sendMessage freshState "Hello".toList envCreateHello).1.messages =
      [⟨roleUser, "Hello".toList⟩,
       ⟨roleAssistant, joinS (envCreateHello.events.map deltaContent)⟩] :=
  c7_new_conversation freshState "Hello".toList envCreateHello
    ⟨"c1".toList, "Hello".toList⟩ rfl rfl rfl (by decide) rfl

/-! ## C4: stream-failure handling -/

theorem sendCore_error (s : ChatState) (cid : Str) (updMsgs : List Msg)
    (effs0 : List Eff) (env : SendEnv) (n : Str)
    (hn : effectiveOutcome env = some n) :
    (¬ n = abortName →
      (sendCore s cid updMsgs effs0 env).1.error = some errServerMsg ∧
      (sendCore s cid updMsgs effs0 env).1.messages =
        ((runEvents (updMsgs ++ [⟨roleAssistant, []⟩])
            (updMsgs ++ [⟨roleAssistant, []⟩]) env.events).1).filter keepOnError) ∧
    (n = abortName →
      (sendCore s cid updMsgs effs0 env).1.error = none ∧
      (sendCore s cid updMsgs effs0 env).1.messages =
        (runEvents (updMsgs ++ [⟨roleAssistant, []⟩])
          (updMsgs ++ [⟨roleAssistant, []⟩]) env.events).1) := by
  unfold effectiveOutcome at hn
  unfold sendCore
  simp only
  cases hrun : runEvents (updMsgs ++ [⟨roleAssistant, []⟩])
      (updMsgs ++ [⟨roleAssistant, []⟩]) env.events with
  | mk react rest =>
    cases rest with
    | mk loc herrv =>
      have herrv2 : herrv = streamErrName env.events := by
        have := runEvents_errName env.events (updMsgs ++ [⟨roleAssistant, []⟩])
          (updMsgs ++ [⟨roleAssistant, []⟩])
        rw [hrun] at this
        exact this
      rw [herrv2, hn]
      simp only
      constructor
      · intro hna
        rw [if_neg hna]
        exact ⟨rfl, rfl⟩
      · intro hna
        rw [if_pos hna]
        exact ⟨rfl, rfl⟩

/-- C4 (amended): when the stream loop fails with an error other than
`AbortError`, `sendMessage` sets the error state to exactly
"Failed to get response from the server" and removes every assistant
message whose content is still empty from the log — an assistant message
that already received partial content is retained, not discarded; an
`AbortError` is silent and the log keeps all partial content. -/
theorem c4_error_handling (s : ChatState) (content : Str) (env : SendEnv)
    (n : Str)
    (hstream : s.isStreaming = false)
    (hprog : s.currentConversationId = none → env.createResult.isSome = true)
    (hn : effectiveOutcome env = some n) :
    (¬ n = abortName →
      (sendMessage s content env).1.error = some errServerMsg ∧
      (sendMessage s content env).1.messages =
        (logAfterEvents (sendBase s) content env.events).filter keepOnError) ∧
    (n = abortName →
      (sendMessage s content env).1.error = none ∧
      (sendMessage s content env).1.messages =
        logAfterEvents (sendBase s) content env.events) := by
  unfold sendMessage
  rw [if_neg (by rw [hstream]; exact Bool.false_ne_true)]
  cases hcid : s.currentConversationId with
  | none =>
    obtain ⟨conv, hcr⟩ := Option.isSome_iff_exists.mp (hprog hcid)
    simp only [hcid, hcr]
    have hcore := sendCore_error
      { s with abortController := some false,
               currentConversationId := some conv.id,
               conversationTitle := conv.title }
      conv.id [⟨roleUser, content⟩] [Eff.createConversation (mkTitle content)]
      env n hn
    have hshape : logAfterEvents (sendBase s) content env.events =
        (runEvents ([(⟨roleUser, content⟩ : Msg)] ++ [⟨roleAssistant, []⟩])
          ([(⟨roleUser, content⟩ : Msg)] ++ [⟨roleAssistant, []⟩]) env.events).1 := by
      unfold logAfterEvents sendBase
      simp only [hcid]
      rfl
    rw [hshape]
    exact hcore
  | some cid =>
    simp only [hcid]
    have hcore := sendCore_error
      { messages := s.messages, isLoading := s.isLoading, error := s.error,
        isStreaming := s.isStreaming, currentConversationId := some cid,
        conversationTitle := s.conversationTitle, abortController := some false }
      cid (s.messages ++ [⟨roleUser, content⟩]) [] env n hn
    have hshape : logAfterEvents (sendBase s) content env.events =
        (runEvents ((s.messages ++ [⟨roleUser, content⟩]) ++ [⟨roleAssistant, []⟩])
          ((s.messages ++ [⟨roleUser, content⟩]) ++ [⟨roleAssistant, []⟩])
          env.events).1 := by
      unfold logAfterEvents sendBase
      simp only [hcid]
      simp [List.append_assoc]
    rw [hshape]
    exact hcore

/-- C4 witness: an existing conversation, one delta "Hi", then a
`SyntaxError`: the error string is set and the empty-assistant filter is
applied to the post-event log. -/
theorem c4_error_handling_witness :
    (¬ ("SyntaxError".toList : Str) = abortName →
      (sendMessage sConvFx "Hi".toList envErrAfterHi).1.error = some errServerMsg ∧
      (sendMessage sConvFx "Hi".toList envErrAfterHi).1.messages =
        (logAfterEvents (sendBase sConvFx) "Hi".toList
            envErrAfterHi.events).filter keepOnError) ∧
    (("SyntaxError".toList : Str) = abortName →
      (sendMessage sConvFx "Hi".toList envErrAfterHi).1.error = none ∧
      (sendMessage sConvFx "Hi".toList envErrAfterHi).1.messages =
        logAfterEvents (sendBase sConvFx) "Hi".toList envErrAfterHi.events) :=
  c4_error_handling sConvFx "Hi".toList envErrAfterHi "SyntaxError".toList
    rfl (fun h => by cases h) rfl

/-- C4 counterexample: the claim says the partial assistant message is
discarded on a non-abort failure, but after the stream delivers "Hi" and
then fails, the assistant message with content "Hi" is still in the log
(only empty assistant messages are filtered out). -/
theorem c4_counterexample :
    (sendMessage sConvFx "Hi".toList envErrAfterHi).1.error = some errServerMsg ∧
    (sendMessage sConvFx "Hi".toList envErrAfterHi).1.messages =
      [⟨roleUser, "Hi".toList⟩, ⟨roleAssistant, "Hi".toList⟩] := by
  decide

/-! ## C5: duplicate ids in the conversation list -/

theorem dedupSeen_length_le :
    ∀ (l : List Str) (seen : List Str), (dedupSeen seen l).length ≤ l.length := by
  intro l
  induction l with
  | nil => intro seen; simp [dedupSeen]
  | cons x xs ih =>
    intro seen
    unfold dedupSeen
    split
    · exact Nat.le_trans (ih seen) (Nat.le_succ _)
    · simp only [List.length_cons]
      exact Nat.succ_le_succ (ih (x :: seen))

theorem dedupSeen_length_eq_iff :
    ∀ (l : List Str) (seen : List Str),
      (dedupSeen seen l).length = l.length ↔
        l.Nodup ∧ ∀ x ∈ l, x ∉ seen := by
  intro l
  induction l with
  | nil => intro seen; simp [dedupSeen]
  | cons x xs ih =>
    intro seen
    unfold dedupSeen
    split
    · next hmem =>
      constructor
      · intro hlen
        exfalso
        have hle := dedupSeen_length_le xs seen
        simp only [List.length_cons] at hlen
        omega
      · intro hcond
        exact absurd hmem (hcond.2 x (List.mem_cons_self x xs))
    · next hmem =>
      simp only [List.length_cons, Nat.succ_inj]
      rw [ih (x :: seen)]
      constructor
      · intro hcond
        refine ⟨List.nodup_cons.mpr ⟨?_, hcond.1⟩, ?_⟩
        · intro hxin
          exact (hcond.2 x hxin) (List.mem_cons_self x seen)
        · intro y hy
          cases List.mem_cons.mp hy with
          | inl heq => subst heq; exact hmem
          | inr hyx =>
            intro hyseen
            exact (hcond.2 y hyx) (List.mem_cons_of_mem x hyseen)
      · intro hcond
        obtain ⟨hnd, hnin⟩ := hcond
        obtain ⟨hxnot, hxsnd⟩ := List.nodup_cons.mp hnd
        refine ⟨hxsnd, ?_⟩
        intro y hy hymem
        cases List.mem_cons.mp hymem with
        | inl heq => subst heq; exact hxnot hy
        | inr hyseen => exact (hnin y (List.mem_cons_of_mem x hy)) hyseen

theorem insertSorted_perm (le : ConvMeta → ConvMeta → Bool) (a : ConvMeta) :
    ∀ l : List ConvMeta, List.Perm (insertSorted le a l) (a :: l) := by
  intro l
  induction l with
  | nil => exact List.Perm.refl _
  | cons b bs ih =>
    unfold insertSorted
    split
    · exact List.Perm.refl _
    · exact List.Perm.trans (List.Perm.cons b ih) (List.Perm.swap a b bs)

theorem sortConvs_perm (le : ConvMeta → ConvMeta → Bool) :
    ∀ l : List ConvMeta, List.Perm (sortConvs le l) l := by
  intro l
  induction l with
  | nil => exact List.Perm.refl _
  | cons a as ih =>
    unfold sortConvs
    exact List.Perm.trans (insertSorted_perm le a (sortConvs le as))
      (List.Perm.cons a ih)

/-- C5 (amended): when `list()` returns entries whose ids are not
pairwise distinct, a warning is logged, but the rendered list keeps every
returned entry — one rendered entry per occurrence, duplicates included
(the state stores the full response and rendering only sorts it), not one
entry per unique id. -/
theorem c5_duplicates (st : SidebarState) (data : List ConvMeta)
    (cur : Option Str)
    (hdup : ¬ (data.map (fun c => c.id)).Nodup) :
    (loadConversations st (some data)).2 = [SideEff.warnDuplicates] ∧
    ∀ p : ConvMeta → Bool,
      (renderedConvs cur
          (loadConversations st (some data)).1.conversations).countP p =
        data.countP p := by
  constructor
  · unfold loadConversations
    simp only
    rw [if_pos]
    intro hlen
    apply hdup
    have := (dedupSeen_length_eq_iff (data.map (fun c => c.id)) []).mp
    unfold dedupSet at hlen
    exact (this hlen.symm).1
  · intro p
    unfold loadConversations renderedConvs
    simp only
    exact (sortConvs_perm (convLe cur) data).countP_eq p

/-- C5 witness: two entries share the id "a"; the warning is emitted and
the rendered list still has two entries with that id. -/
theorem c5_duplicates_witness :
    (loadConversations sbInit (some dupData)).2 = [SideEff.warnDuplicates] ∧
    (renderedConvs (some "z".toList)
        (loadConversations sbInit (some dupData)).1.conversations).countP
      (fun cm => cm.id == "a".toList) = dupData.countP (fun cm => cm.id == "a".toList) := by
  have h := c5_duplicates sbInit dupData (some "z".toList) (by decide)
  exact ⟨h.1, h.2 (fun cm => cm.id == "a".toList)⟩

/-- C5 counterexample: the warning is logged, but the rendered list
contains two entries for the duplicated id, not exactly one. -/
theorem c5_counterexample :
    (loadConversations sbInit (some dupData)).2 = [SideEff.warnDuplicates] ∧
    (renderedConvs (some "z".toList)
        (loadConversations sbInit (some dupData)).1.conversations).countP
      (fun cm => cm.id == "a".toList) = 2 := by
  decide

/-! ## C6: adopting the id returned by update -/

/-- C6 (amended): when the debounced save's `updateConversation` response
carries an id different from the requested one, the caller adopts the
returned id as the authoritative current conversation id, but no warning
is logged about the mismatch (the adoption is silent). -/
theorem c6_id_adoption (s : ChatState) (cid : Str) (conv : Conv)
    (hid : s.currentConversationId = some cid)
    (hmsgs : s.messages ≠ [])
    (hstream : s.isStreaming = false)
    (hdiff : conv.id ≠ cid) :
    (debouncedSave s (some conv)).1.currentConversationId = some conv.id ∧
    ((debouncedSave s (some conv)).2.all (fun e => !(isWarnEff e))) = true := by
  unfold debouncedSave
  simp only [hid]
  rw [if_pos ⟨hmsgs, hstream⟩]
  simp only
  rw [if_pos hdiff]
  constructor
  · split <;> rfl
  · simp [isWarnEff]

/-- C6 witness: a save against id "a" answered with id "b" adopts "b"
without any warning effect. -/
theorem c6_id_adoption_witness :
    (debouncedSave sSaveFx (some convB)).1.currentConversationId =
      some convB.id ∧
    ((debouncedSave sSaveFx (some convB)).2.all (fun e => !(isWarnEff e))) = true :=
  c6_id_adoption sSaveFx "a".toList convB rfl (by decide) rfl (by decide)

/-- C6 counterexample: the claim requires a logged warning on the id
mismatch, but the effect list of the save contains none — only the
update request itself. -/
theorem c6_counterexample :
    (debouncedSave sSaveFx (some convB)).1.currentConversationId =
      some "b".toList ∧
    (debouncedSave sSaveFx (some convB)).2 =
      [Eff.updateConversation "a".toList [⟨roleUser, "x".toList⟩]] ∧
    ((debouncedSave sSaveFx (some convB)).2.any isWarnEff) = false := by
  decide

/-! ## C9: the empty-content guard -/

/-- C9 (amended): the no-op on whitespace-only input is enforced by
`MessageInput.handleSubmit`, which never calls `onSend` when the typed
message trims to empty; `useChat.sendMessage` itself performs no such
check and proceeds for any content. -/
theorem c9_empty_guard (message : Str) (disabled isSending : Bool)
    (h : jsTrim message = []) :
    handleSubmit message disabled isSending = none := by
  unfold handleSubmit
  rw [if_neg]
  intro hcond
  exact hcond.1 h

/-- C9 witness: submitting three spaces never reaches `onSend`. -/
theorem c9_empty_guard_witness :
    handleSubmit "   ".toList false false = none :=
  c9_empty_guard "   ".toList false false (by decide)

/-- C9 counterexample: `useChat.sendMessage` called directly with
whitespace-only content and no active stream is not a no-op: it issues
HTTP requests (a conversation is created) and appends messages. -/
theorem c9_counterexample :
    jsTrim "   ".toList = ([] : Str) ∧
    ((sendMessage freshState "   ".toList envWsCreate).2.any isHttpEff) = true ∧
    (sendMessage freshState "   ".toList envWsCreate).1.messages ≠ [] := by
  decide

end LlmFrontEnd
